import Mathlib

/-!
Verification of the progress-persistence and synchronization subsystem of
the EBookReader repository, by a shallow embedding of:

* the server-side Tiered Cache (Redis primary with in-memory fallback,
  `cache.ts` as reproduced in IMPROVEMENT_PLAN.md),
* the Session Lifecycle helpers built on it (`setSessionData`,
  `updateActivityTimestamp`, `markInactive`),
* the client-side Local Durable Store (`client/src/services/cacheService.ts`),
* the Sync Reconciler (`client/src/services/syncService.ts`),
* the reader-store save action (`saveProgress` in the zustand store).

Modelling conventions:
* JavaScript `Map` / `localStorage` objects are modelled as association
  lists with unique keys; `JSON.stringify` / `JSON.parse` round-trips are
  modelled as the identity (values are stored typed).
* Timestamps (`Date.now()`, parsed ISO date strings) are integers
  (milliseconds since the epoch); `new Date(a) > new Date(b)` becomes
  integer comparison.
* Exceptions thrown by the primary (Redis) client are modelled with
  `Except Unit`; the cache operations catch every primary failure, which
  is reflected here by their being total functions on arbitrary primary
  responses.
-/

set_option autoImplicit false

namespace EBookReader

/-! ## Association-list maps (model of JS Map / localStorage key space) -/

variable {β : Type}

/-- Look up the first binding of a key. -/
def lookupA : List (String × β) → String → Option β
  | [], _ => none
  | (k, v) :: rest, key => if k = key then some v else lookupA rest key

/-- Replace the first binding of a key, or append a fresh binding
(JS `Map.set` / `localStorage.setItem`). -/
def insertA : List (String × β) → String → β → List (String × β)
  | [], key, val => [(key, val)]
  | (k, v) :: rest, key, val =>
      if k = key then (key, val) :: rest else (k, v) :: insertA rest key val

/-- Remove the first binding of a key (JS `Map.delete` /
`localStorage.removeItem`; on a unique-key map this removes the binding). -/
def eraseA : List (String × β) → String → List (String × β)
  | [], _ => []
  | (k, v) :: rest, key => if k = key then rest else (k, v) :: eraseA rest key

@[simp] theorem lookupA_nil (key : String) : lookupA ([] : List (String × β)) key = none := rfl

@[simp] theorem lookupA_cons (k : String) (v : β) (rest : List (String × β)) (key : String) :
    lookupA ((k, v) :: rest) key = if k = key then some v else lookupA rest key := rfl

theorem lookupA_insertA_self (l : List (String × β)) (key : String) (val : β) :
    lookupA (insertA l key val) key = some val := by
  induction l with
  | nil => simp [insertA, lookupA]
  | cons p rest ih =>
      obtain ⟨k, v⟩ := p
      by_cases hk : k = key
      · simp [insertA, hk, lookupA]
      · simp [insertA, hk, lookupA, ih]

theorem lookupA_insertA_ne (l : List (String × β)) (key key' : String) (val : β)
    (h : key ≠ key') : lookupA (insertA l key val) key' = lookupA l key' := by
  induction l with
  | nil => simp [insertA, lookupA, h]
  | cons p rest ih =>
      obtain ⟨k, v⟩ := p
      by_cases hk : k = key
      · subst hk
        simp [insertA, lookupA, h]
      · simp [insertA, hk, lookupA, ih]

theorem lookupA_eraseA_ne (l : List (String × β)) (key key' : String)
    (h : key ≠ key') : lookupA (eraseA l key) key' = lookupA l key' := by
  induction l with
  | nil => simp [eraseA]
  | cons p rest ih =>
      obtain ⟨k, v⟩ := p
      by_cases hk : k = key
      · subst hk
        simp [eraseA, lookupA, h]
      · simp [eraseA, hk, lookupA, ih]

theorem eraseA_of_lookupA_none (l : List (String × β)) (key : String)
    (h : lookupA l key = none) : eraseA l key = l := by
  induction l with
  | nil => simp [eraseA]
  | cons p rest ih =>
      obtain ⟨k, v⟩ := p
      by_cases hk : k = key
      · simp [lookupA, hk] at h
      · simp [lookupA, hk] at h
        simp [eraseA, hk, ih h]

theorem lookupA_none_of_not_mem_keys (l : List (String × β)) (key : String)
    (h : key ∉ l.map Prod.fst) : lookupA l key = none := by
  induction l with
  | nil => simp
  | cons p rest ih =>
      obtain ⟨k, v⟩ := p
      simp only [List.map_cons, List.mem_cons] at h
      push_neg at h
      have hk : ¬ k = key := fun hk => h.1 hk.symm
      simp [lookupA, hk, ih h.2]

theorem keys_insertA_subset (l : List (String × β)) (key : String) (val : β) :
    ∀ k, k ∈ (insertA l key val).map Prod.fst → k ∈ l.map Prod.fst ∨ k = key := by
  induction l with
  | nil =>
      intro k hk
      simp [insertA] at hk
      exact Or.inr hk
  | cons p rest ih =>
      obtain ⟨k0, v0⟩ := p
      intro k hk
      by_cases hk0 : k0 = key
      · subst hk0
        simp [insertA] at hk
        rcases hk with h | h
        · exact Or.inr h
        · exact Or.inl (by simp [h])
      · simp [insertA, hk0] at hk
        rcases hk with h | h
        · exact Or.inl (by simp [h])
        · rcases ih k (by simpa using h) with h2 | h2
          · exact Or.inl (by simp; right; simpa using h2)
          · exact Or.inr h2

theorem nodup_keys_insertA (l : List (String × β)) (key : String) (val : β)
    (h : (l.map Prod.fst).Nodup) : ((insertA l key val).map Prod.fst).Nodup := by
  induction l with
  | nil => simp [insertA]
  | cons p rest ih =>
      obtain ⟨k0, v0⟩ := p
      simp only [List.map_cons, List.nodup_cons] at h
      by_cases hk0 : k0 = key
      · subst hk0
        simpa [insertA] using h
      · have hres : (insertA ((k0, v0) :: rest) key val).map Prod.fst
            = k0 :: (insertA rest key val).map Prod.fst := by
          simp [insertA, hk0]
        rw [hres]
        refine List.nodup_cons.2 ⟨?_, ih h.2⟩
        intro hmem
        rcases keys_insertA_subset rest key val k0 hmem with h2 | h2
        · exact h.1 h2
        · exact hk0 h2

/-! ## Tiered Cache (server `cache.ts`, reproduced in IMPROVEMENT_PLAN.md)

The primary backing store is the Redis client; a call to it either throws
(modelled as `Except.error ()`) or returns (`Except.ok`).  The in-memory
fallback is `memoryCache : Map<string, { data, expiry }>`.  The code wraps
every primary call in a try/catch whose catch arm falls through to the
memory tier, so the translated operations are total functions on arbitrary
primary responses: no exception ever escapes them. -/

/-- One entry of the in-memory fallback map: serialized payload plus an
absolute expiry time in milliseconds. -/
structure MemEntry (α : Type) where
  data : α
  expiry : Int
  deriving Repr, DecidableEq

/-- The in-memory fallback cache, a JS `Map` keyed by cache key. -/
abbrev Mem (α : Type) := List (String × MemEntry α)

/-- The memory-tier read path of `get`: return a live entry, otherwise
delete the (absent or expired) entry and return null. -/
def memGet {α : Type} (mem : Mem α) (now : Int) (key : String) : Option α × Mem α :=
  match lookupA mem key with
  | some e => if now < e.expiry then (some e.data, mem) else (none, eraseA mem key)
  | none => (none, eraseA mem key)

/-- `get(key)`: if connected, try the primary and return its answer (a
primary miss returns null directly); on a primary throw, or when not
connected, fall through to the memory tier. -/
def cacheGet {α : Type} (isConnected : Bool) (primResp : Except Unit (Option α))
    (mem : Mem α) (now : Int) (key : String) : Option α × Mem α :=
  match isConnected, primResp with
  | true, Except.ok d => (d, mem)
  | true, Except.error _ => memGet mem now key
  | false, _ => memGet mem now key

/-- `set(key, value, ttl)`: if connected, `setEx` on the primary and return;
on a primary throw, or when not connected, write the memory tier with
expiry `now + ttl * 1000` (ttl is in seconds, `Date.now()` in ms). -/
def cacheSet {α : Type} (isConnected : Bool) (primResp : Except Unit Unit)
    (mem : Mem α) (now : Int) (key : String) (value : α) (ttl : Int) : Mem α :=
  match isConnected, primResp with
  | true, Except.ok _ => mem
  | true, Except.error _ => insertA mem key ⟨value, now + ttl * 1000⟩
  | false, _ => insertA mem key ⟨value, now + ttl * 1000⟩

/-- `del(key)`: if connected, delete on the primary, ignoring any throw;
then unconditionally delete from the memory tier. -/
def cacheDel {α : Type} (_isConnected : Bool) (_primResp : Except Unit Unit)
    (mem : Mem α) (key : String) : Mem α :=
  eraseA mem key

/-- The periodic cleanup: every minute, evict every fallback entry whose
`expiry` is in the past. -/
def sweepMemoryCache {α : Type} (mem : Mem α) (now : Int) : Mem α :=
  mem.filter (fun kv => ! decide (kv.2.expiry < now))

/-- TTL constants of `CACHE_DEFAULTS` (seconds). -/
def BOOK_TTL : Int := 60 * 60 * 24

/-- Active session TTL (24 hours, seconds). -/
def SESSION_TTL : Int := 60 * 60 * 24

/-- Inactive session TTL (10 minutes, seconds). -/
def INACTIVE_TTL : Int := 60 * 10

/-- Sweep interval of the periodic cleanup (milliseconds). -/
def SWEEP_INTERVAL_MS : Int := 60 * 1000

theorem lookupA_sweep {α : Type} (mem : Mem α) (now : Int) (key : String)
    (hnd : (mem.map Prod.fst).Nodup) :
    lookupA (sweepMemoryCache mem now) key =
      match lookupA mem key with
      | some e => if e.expiry < now then none else some e
      | none => none := by
  induction mem with
  | nil => simp [sweepMemoryCache, lookupA]
  | cons p rest ih =>
      obtain ⟨k, v⟩ := p
      simp only [List.map_cons, List.nodup_cons] at hnd
      by_cases hk : k = key
      · subst hk
        by_cases hexp : v.expiry < now
        · have hrest : lookupA (sweepMemoryCache rest now) k = none := by
            apply lookupA_none_of_not_mem_keys
            intro hmem
            apply hnd.1
            have hsub : (sweepMemoryCache rest now).map Prod.fst ⊆ rest.map Prod.fst := by
              apply List.map_subset
              intro x hx
              exact List.mem_of_mem_filter hx
            exact hsub hmem
          simp [sweepMemoryCache, List.filter, hexp, lookupA] at hrest ⊢
          exact hrest
        · simp [sweepMemoryCache, List.filter, hexp, lookupA]
      · by_cases hexp : v.expiry < now
        · simpa [sweepMemoryCache, List.filter, hexp, lookupA, hk] using ih hnd.2
        · simpa [sweepMemoryCache, List.filter, hexp, lookupA, hk] using ih hnd.2

theorem cacheGet_false {α : Type} (resp : Except Unit (Option α)) (mem : Mem α)
    (now : Int) (key : String) :
    cacheGet false resp mem now key = memGet mem now key := by
  cases resp <;> rfl

theorem cacheSet_false {α : Type} (resp : Except Unit Unit) (mem : Mem α)
    (now : Int) (key : String) (value : α) (ttl : Int) :
    cacheSet false resp mem now key value ttl = insertA mem key ⟨value, now + ttl * 1000⟩ := by
  cases resp <;> rfl

/-- C9: Tiered Cache `get`, `set` and `delete` never throw past the cache
layer — they are total functions over every primary response, the catch
arms being part of their definitions — and when the primary is
disconnected, throws, or misses, while the fallback also misses (absent or
expired), `get` returns absent; `delete` with the key absent from the
fallback leaves the fallback unchanged (a silent no-op). -/
theorem cacheOps_never_surface_unavailability :
    (∀ (conn : Bool) (respG : Except Unit (Option String)) (mem : Mem String)
        (now : Int) (key : String),
      (conn = false ∨ respG = Except.error () ∨ respG = Except.ok none) →
      (memGet mem now key).1 = none →
      (cacheGet conn respG mem now key).1 = none)
  ∧ (∀ (conn : Bool) (respD : Except Unit Unit) (mem : Mem String) (key : String),
      lookupA mem key = none →
      cacheDel conn respD mem key = mem) := by
  constructor
  · intro conn respG mem now key hfail hmiss
    cases conn with
    | false => rw [cacheGet_false]; exact hmiss
    | true =>
        rcases hfail with h | h | h
        · exact absurd h (by simp)
        · subst h; simpa [cacheGet] using hmiss
        · subst h; simp [cacheGet]
  · intro conn respD mem key habs
    simp [cacheDel, eraseA_of_lookupA_none mem key habs]

theorem cacheOps_never_surface_unavailability_witness :
    (cacheGet false (Except.error ()) ([] : Mem String) 0 "k").1 = none
  ∧ cacheDel true (Except.error ()) ([("a", ⟨"v", 5⟩)] : Mem String) "k"
      = [("a", ⟨"v", 5⟩)] :=
  ⟨cacheOps_never_surface_unavailability.1 false (Except.error ()) [] 0 "k"
      (Or.inl rfl) rfl,
   cacheOps_never_surface_unavailability.2 true (Except.error ())
      [("a", ⟨"v", 5⟩)] "k" (by decide)⟩

/-- C6: a fallback-tier entry written at `t0` with time-to-live `ttl`
(seconds) is absent once time passes `t0 + ttl` plus one sweep interval:
a `get` at such a time returns absent (and lazily drops the entry), and
the periodic sweep run at such a time evicts the entry from the map. -/
theorem fallback_entry_expires (mem : Mem String) (k v : String)
    (ttl t0 now : Int) (respG : Except Unit (Option String))
    (hnd : (mem.map Prod.fst).Nodup)
    (h : t0 + ttl * 1000 + SWEEP_INTERVAL_MS < now) :
    ((cacheGet false respG (cacheSet false (Except.error ()) mem t0 k v ttl) now k).1 = none)
  ∧ lookupA (sweepMemoryCache (cacheSet false (Except.error ()) mem t0 k v ttl) now) k
      = none := by
  have hset : cacheSet false (Except.error ()) mem t0 k v ttl
      = insertA mem k ⟨v, t0 + ttl * 1000⟩ := cacheSet_false _ _ _ _ _ _
  have hlook : lookupA (insertA mem k ⟨v, t0 + ttl * 1000⟩) k
      = some ⟨v, t0 + ttl * 1000⟩ := lookupA_insertA_self _ _ _
  have hexp : (t0 + ttl * 1000 : Int) < now := by
    have h60 : (0 : Int) < SWEEP_INTERVAL_MS := by decide
    linarith
  constructor
  · rw [hset, cacheGet_false, memGet, hlook]
    simp [not_lt.2 (le_of_lt hexp)]
  · rw [hset, lookupA_sweep _ _ _ (nodup_keys_insertA mem k _ hnd), hlook]
    simp [hexp]

theorem fallback_entry_expires_witness :
    ((cacheGet false (Except.error ())
        (cacheSet false (Except.error ()) ([] : Mem String) 0 "k" "v" 1) 70000 "k").1 = none)
  ∧ lookupA (sweepMemoryCache
        (cacheSet false (Except.error ()) ([] : Mem String) 0 "k" "v" 1) 70000) "k" = none :=
  fallback_entry_expires [] "k" "v" 1 0 70000 (Except.error ()) (by simp) (by decide)

theorem lookupA_eraseA_self {β : Type} (l : List (String × β)) (key : String)
    (hnd : (l.map Prod.fst).Nodup) : lookupA (eraseA l key) key = none := by
  induction l with
  | nil => simp [eraseA]
  | cons p rest ih =>
      obtain ⟨k, v⟩ := p
      simp only [List.map_cons, List.nodup_cons] at hnd
      by_cases hk : k = key
      · subst hk
        simp only [eraseA, if_pos rfl]
        exact lookupA_none_of_not_mem_keys rest k hnd.1
      · simp [eraseA, hk, lookupA, ih hnd.2]

/-! ## Session lifecycle helpers (server `cache.ts`)

Session records are JS objects; the touch path writes
`{ ...data, lastActivity: Date.now() }`, i.e. the same object with its
`lastActivity` field overwritten.  A session record is therefore modelled
as an opaque payload (all fields the spread preserves) plus the
`lastActivity` field.  The theorems below run the helpers in the fallback
configuration (`isConnected = false`), where the TTL semantics is the
code under analysis rather than the external Redis service. -/

/-- A stored session object: the fields untouched by the spread, plus
`lastActivity` (absent until the first touch). -/
structure SessionData where
  payload : String
  lastActivity : Option Int
  deriving Repr, DecidableEq

/-- The `session:{id}` key namespace. -/
def sessionKey (sessionId : String) : String := "session:" ++ sessionId

/-- `setSessionData`: store under the active TTL (24 h). -/
def setSessionData (conn : Bool) (respS : Except Unit Unit) (mem : Mem SessionData)
    (now : Int) (sessionId : String) (d : SessionData) : Mem SessionData :=
  cacheSet conn respS mem now (sessionKey sessionId) d SESSION_TTL

/-- `getSessionData`: read through the tiered `get`. -/
def getSessionData (conn : Bool) (respG : Except Unit (Option SessionData))
    (mem : Mem SessionData) (now : Int) (sessionId : String) :
    Option SessionData × Mem SessionData :=
  cacheGet conn respG mem now (sessionKey sessionId)

/-- `updateActivityTimestamp` (touch): if the record is present, rewrite it
with `lastActivity` set to the current time, under the active TTL. -/
def updateActivityTimestamp (conn : Bool) (respG : Except Unit (Option SessionData))
    (respS : Except Unit Unit) (mem : Mem SessionData) (now : Int)
    (sessionId : String) : Mem SessionData :=
  match getSessionData conn respG mem now sessionId with
  | (some d, m) => setSessionData conn respS m now sessionId { d with lastActivity := some now }
  | (none, m) => m

/-- `markInactive`: if the record is present, rewrite it unchanged under
the short inactive TTL (10 min). -/
def markInactive (conn : Bool) (respG : Except Unit (Option SessionData))
    (respS : Except Unit Unit) (mem : Mem SessionData) (now : Int)
    (sessionId : String) : Mem SessionData :=
  match getSessionData conn respG mem now sessionId with
  | (some d, m) => cacheSet conn respS m now (sessionKey sessionId) d INACTIVE_TTL
  | (none, m) => m

theorem sessionKey_inj {a b : String} (h : a ≠ b) : sessionKey a ≠ sessionKey b := by
  intro he
  apply h
  have hd := congrArg String.data he
  simp only [sessionKey, String.data_append] at hd
  exact String.ext (List.append_cancel_left hd)

/-- C4, counterexample: touch does not rewrite the record unchanged.  A
session stored as payload `"p"` with `lastActivity = 5`, touched at time
100, is rewritten with `lastActivity = 100`, a different record. -/
theorem touch_changes_record :
    (lookupA (updateActivityTimestamp false (Except.error ()) (Except.error ())
        [(sessionKey "s", ⟨⟨"p", some 5⟩, 1000000⟩)] 100 "s") (sessionKey "s")).map
          MemEntry.data = some ⟨"p", some 100⟩
  ∧ (⟨"p", some 100⟩ : SessionData) ≠ ⟨"p", some 5⟩ := by
  constructor
  · rfl
  · decide

/-- C4 (amended): touch (`updateActivityTimestamp`) on a present, unexpired
session rewrites the record with the same payload but `lastActivity` set
to the current time, under the active TTL; on an absent session it leaves
the store unchanged; on an expired session it creates no record (the stale
entry is lazily dropped, and the key still reads as absent). -/
theorem touch_semantics :
    (∀ (mem : Mem SessionData) (sessionId : String) (e : MemEntry SessionData) (now : Int),
      lookupA mem (sessionKey sessionId) = some e → now < e.expiry →
      updateActivityTimestamp false (Except.error ()) (Except.error ()) mem now sessionId
        = insertA mem (sessionKey sessionId)
            ⟨⟨e.data.payload, some now⟩, now + SESSION_TTL * 1000⟩)
  ∧ (∀ (mem : Mem SessionData) (sessionId : String) (now : Int),
      lookupA mem (sessionKey sessionId) = none →
      updateActivityTimestamp false (Except.error ()) (Except.error ()) mem now sessionId
        = mem)
  ∧ (∀ (mem : Mem SessionData) (sessionId : String) (e : MemEntry SessionData) (now : Int),
      (mem.map Prod.fst).Nodup →
      lookupA mem (sessionKey sessionId) = some e → e.expiry ≤ now →
      lookupA (updateActivityTimestamp false (Except.error ()) (Except.error ())
        mem now sessionId) (sessionKey sessionId) = none) := by
  refine ⟨?_, ?_, ?_⟩
  · intro mem sessionId e now hlook hlive
    simp [updateActivityTimestamp, getSessionData, cacheGet_false, memGet, hlook, hlive,
      setSessionData, cacheSet_false]
  · intro mem sessionId now hlook
    simp [updateActivityTimestamp, getSessionData, cacheGet_false, memGet, hlook,
      eraseA_of_lookupA_none mem _ hlook]
  · intro mem sessionId e now hnd hlook hexp
    simp [updateActivityTimestamp, getSessionData, cacheGet_false, memGet, hlook,
      not_lt.2 hexp, lookupA_eraseA_self mem _ hnd]

theorem touch_semantics_witness :
    (updateActivityTimestamp false (Except.error ()) (Except.error ())
        [(sessionKey "s", ⟨⟨"p", none⟩, 1000⟩)] 10 "s"
      = insertA [(sessionKey "s", ⟨⟨"p", none⟩, 1000⟩)] (sessionKey "s")
          ⟨⟨"p", some 10⟩, 10 + SESSION_TTL * 1000⟩)
  ∧ (updateActivityTimestamp false (Except.error ()) (Except.error ()) [] 0 "s" = [])
  ∧ (lookupA (updateActivityTimestamp false (Except.error ()) (Except.error ())
        [(sessionKey "s", ⟨⟨"p", none⟩, 5⟩)] 10 "s") (sessionKey "s") = none) :=
  ⟨touch_semantics.1 [(sessionKey "s", ⟨⟨"p", none⟩, 1000⟩)] "s" ⟨⟨"p", none⟩, 1000⟩ 10
      rfl (by decide),
   touch_semantics.2.1 [] "s" 0 rfl,
   touch_semantics.2.2 [(sessionKey "s", ⟨⟨"p", none⟩, 5⟩)] "s" ⟨⟨"p", none⟩, 5⟩ 10
      (by simp) rfl (by decide)⟩

/-- C5: two sessions `a` and `b` are created at time `t0`; `a` is marked
idle at `t1` (while still live) and never touched again.  At any read time
`t2` past the inactive TTL counted from `t1` but still within the active
TTL counted from `t0`, session `a` reads as absent while the identical,
never-idled session `b` is still present. -/
theorem idle_session_expires_before_active (mem : Mem SessionData) (a b : String)
    (da db : SessionData) (t0 t1 t2 : Int) (hab : a ≠ b)
    (hlive : t1 < t0 + SESSION_TTL * 1000)
    (hidle : t1 + INACTIVE_TTL * 1000 ≤ t2)
    (hactive : t2 < t0 + SESSION_TTL * 1000) :
    (getSessionData false (Except.error ())
        (markInactive false (Except.error ()) (Except.error ())
          (setSessionData false (Except.error ())
            (setSessionData false (Except.error ()) mem t0 b db) t0 a da) t1 a)
        t2 a).1 = none
  ∧ (getSessionData false (Except.error ())
        (markInactive false (Except.error ()) (Except.error ())
          (setSessionData false (Except.error ())
            (setSessionData false (Except.error ()) mem t0 b db) t0 a da) t1 a)
        t2 b).1 = some db := by
  have hkey : sessionKey a ≠ sessionKey b := sessionKey_inj hab
  have hm1a : lookupA (setSessionData false (Except.error ())
      (setSessionData false (Except.error ()) mem t0 b db) t0 a da) (sessionKey a)
      = some ⟨da, t0 + SESSION_TTL * 1000⟩ := by
    simp [setSessionData, cacheSet_false, lookupA_insertA_self]
  have hm1b : lookupA (setSessionData false (Except.error ())
      (setSessionData false (Except.error ()) mem t0 b db) t0 a da) (sessionKey b)
      = some ⟨db, t0 + SESSION_TTL * 1000⟩ := by
    simp [setSessionData, cacheSet_false, lookupA_insertA_ne _ _ _ _ hkey,
      lookupA_insertA_self]
  have hmark : markInactive false (Except.error ()) (Except.error ())
      (setSessionData false (Except.error ())
        (setSessionData false (Except.error ()) mem t0 b db) t0 a da) t1 a
      = insertA (setSessionData false (Except.error ())
          (setSessionData false (Except.error ()) mem t0 b db) t0 a da)
          (sessionKey a) ⟨da, t1 + INACTIVE_TTL * 1000⟩ := by
    simp [markInactive, getSessionData, cacheGet_false, memGet, hm1a, hlive,
      cacheSet_false]
  rw [hmark]
  constructor
  · simp [getSessionData, cacheGet_false, memGet, lookupA_insertA_self,
      not_lt.2 hidle]
  · simp [getSessionData, cacheGet_false, memGet,
      lookupA_insertA_ne _ _ _ _ hkey, hm1b, hactive]

theorem idle_session_expires_before_active_witness :
    (getSessionData false (Except.error ())
        (markInactive false (Except.error ()) (Except.error ())
          (setSessionData false (Except.error ())
            (setSessionData false (Except.error ()) [] 0 "b" ⟨"q", none⟩) 0 "a" ⟨"q", none⟩)
          0 "a") 1000000 "a").1 = none
  ∧ (getSessionData false (Except.error ())
        (markInactive false (Except.error ()) (Except.error ())
          (setSessionData false (Except.error ())
            (setSessionData false (Except.error ()) [] 0 "b" ⟨"q", none⟩) 0 "a" ⟨"q", none⟩)
          0 "a") 1000000 "b").1 = some ⟨"q", none⟩ :=
  idle_session_expires_before_active [] "a" "b" ⟨"q", none⟩ ⟨"q", none⟩ 0 0 1000000
    (by decide) (by decide) (by decide) (by decide)

/-! ## Local Durable Store data model (client `types/index.ts`,
`cacheService.ts`)

`Book` keeps the fields this subsystem reads (`id`; `title` and `source`
stand for the metadata carried along but never inspected here). -/

/-- A bookmark, owned by its progress record. -/
structure Bookmark where
  id : String
  page : Int
  note : Option String
  createdAt : Int
  deriving Repr, DecidableEq

/-- A per-book progress record (`ReadingProgress`). -/
structure ReadingProgress where
  bookId : String
  currentPage : Int
  totalPages : Int
  percentage : Int
  lastRead : Int
  bookmarks : List Bookmark
  deriving Repr, DecidableEq

/-- Book metadata as carried through the recent-books list. -/
structure Book where
  id : String
  title : String
  source : String
  deriving Repr, DecidableEq

/-- One entry of the recent-books list. -/
structure RecentBook where
  book : Book
  lastRead : Int
  progress : Int
  deriving Repr, DecidableEq

/-- The Local Durable Store: the per-book progress records (the
`bookreader_progress_{bookId}` keys of localStorage) and the recent-books
list (the `bookreader_recent_books` key). -/
structure Store where
  progress : List (String × ReadingProgress)
  recent : List RecentBook
  deriving Repr, DecidableEq

/-- `recent.findIndex((r) => r.book.id === bookId)` followed by the access:
the first entry for the book, if any. -/
def findRecent : List RecentBook → String → Option RecentBook
  | [], _ => none
  | r :: rest, bookId => if r.book.id = bookId then some r else findRecent rest bookId

/-- `recent.splice(existingIndex, 1)`: the list with the first entry for
the book removed. -/
def removeRecentFirst : List RecentBook → String → List RecentBook
  | [], _ => []
  | r :: rest, bookId =>
      if r.book.id = bookId then rest else r :: removeRecentFirst rest bookId

/-- `updateRecentBooks`: if the book already has an entry, update its
last-read time and progress and move it to the front; always truncate to
the 20 most recent entries.  A book with no existing entry is not added. -/
def updateRecentBooks (recent : List RecentBook) (bookId : String)
    (p : ReadingProgress) (now : Int) : List RecentBook :=
  match findRecent recent bookId with
  | some r =>
      ({ r with lastRead := now, progress := p.percentage }
        :: removeRecentFirst recent bookId).take 20
  | none => recent.take 20

/-- `addToRecentBooks`: move an existing entry to the front (refreshing its
last-read time), or prepend a fresh entry with progress 0; truncate to 20. -/
def addToRecentBooks (recent : List RecentBook) (book : Book) (now : Int) :
    List RecentBook :=
  match findRecent recent book.id with
  | some r => ({ r with lastRead := now } :: removeRecentFirst recent book.id).take 20
  | none => (⟨book, now, 0⟩ :: recent).take 20

/-- `saveReadingProgress`: store the record wholesale under the book's
progress key, then update the recent-books list. -/
def saveReadingProgress (store : Store) (now : Int) (bookId : String)
    (p : ReadingProgress) : Store :=
  { progress := insertA store.progress bookId p
    recent := updateRecentBooks store.recent bookId p now }

/-- `getAllReadingProgress`: the map of every stored progress record. -/
def getAllReadingProgress (store : Store) : List (String × ReadingProgress) :=
  store.progress

/-! ## Sync Reconciler (client `syncService.ts`) -/

/-- One iteration of the `pullAndMergeProgress` loop: compare the remote
record against the snapshot of local records taken before the loop, and
adopt it when there is no local record or the remote `lastRead` is
strictly later. -/
def mergeStep (localProgress : List (String × ReadingProgress)) (now : Int)
    (st : Store) (cloud : ReadingProgress) : Store :=
  match lookupA localProgress cloud.bookId with
  | none => saveReadingProgress st now cloud.bookId cloud
  | some localRec =>
      if localRec.lastRead < cloud.lastRead then saveReadingProgress st now cloud.bookId cloud
      else st

/-- `pullAndMergeProgress`: fold the merge over the pulled cloud records.
The pulled list is a parameter (the fetch itself is an external HTTP
call); the server stores at most one record per (user, book) — SQLite
primary key (user_id, book_id) — so pulled book ids are distinct. -/
def pullAndMergeProgress (cloud : List ReadingProgress) (store : Store)
    (now : Int) : Store :=
  cloud.foldl (mergeStep (getAllReadingProgress store) now) store

/-- `CLOUD_PUSH_THROTTLE_MS`, 30 seconds. -/
def CLOUD_PUSH_THROTTLE_MS : Int := 30000

/-- The module-level mutable state of `syncService.ts`: the single shared
`lastCloudPush` timestamp. -/
structure SyncState where
  lastCloudPush : Int
  deriving Repr, DecidableEq

/-- `pushSingleProgress`: when throttled, return false with no network
send; otherwise update `lastCloudPush` and send.  The components are the
returned boolean, the module state, and the payload handed to
`api.syncProgress` (`none` = no send).  A network throw (`netOk = false`)
rejects the promise after `lastCloudPush` was already updated; the
rejection carries the state at the throw. -/
def pushSingleProgress (st : SyncState) (now : Int) (p : ReadingProgress)
    (netOk : Bool) : Except SyncState (Bool × SyncState × Option (List ReadingProgress)) :=
  if now - st.lastCloudPush < CLOUD_PUSH_THROTTLE_MS then Except.ok (false, st, none)
  else if netOk then Except.ok (true, ⟨now⟩, some [p])
  else Except.error ⟨now⟩

/-- `pushAllProgress`: send the complete local set when nonempty, then set
`lastCloudPush`.  A network throw rejects before the timestamp line runs,
leaving the state unchanged (the rejection carries that state). -/
def pushAllProgress (st : SyncState) (store : Store) (now : Int) (netOk : Bool) :
    Except SyncState (SyncState × Option (List ReadingProgress)) :=
  let progressList := (getAllReadingProgress store).map Prod.snd
  if 0 < progressList.length then
    if netOk then Except.ok (⟨now⟩, some progressList) else Except.error st
  else Except.ok (⟨now⟩, none)

theorem mergeStep_progress_lookup_ne (loc : List (String × ReadingProgress)) (now : Int)
    (st : Store) (c : ReadingProgress) (b : String) (h : c.bookId ≠ b) :
    lookupA (mergeStep loc now st c).progress b = lookupA st.progress b := by
  unfold mergeStep
  cases hl : lookupA loc c.bookId with
  | none => simp [saveReadingProgress, lookupA_insertA_ne _ _ _ _ h]
  | some l =>
      by_cases hlt : l.lastRead < c.lastRead
      · simp [hlt, saveReadingProgress, lookupA_insertA_ne _ _ _ _ h]
      · simp [hlt]

theorem mergeFold_progress_lookup_not_mem (loc : List (String × ReadingProgress))
    (now : Int) (cloud : List ReadingProgress) (st : Store) (b : String)
    (hb : b ∉ cloud.map ReadingProgress.bookId) :
    lookupA (cloud.foldl (mergeStep loc now) st).progress b = lookupA st.progress b := by
  induction cloud generalizing st with
  | nil => simp
  | cons c rest ih =>
      simp only [List.map_cons, List.mem_cons] at hb
      push_neg at hb
      rw [List.foldl_cons, ih _ hb.2,
        mergeStep_progress_lookup_ne loc now st c b (fun hc => hb.1 hc.symm)]

theorem mergeFold_lww (loc : List (String × ReadingProgress)) (now : Int)
    (cloud : List ReadingProgress) (st : Store) (R : ReadingProgress)
    (hR : R ∈ cloud) (hnd : (cloud.map ReadingProgress.bookId).Nodup)
    (hagree : lookupA st.progress R.bookId = lookupA loc R.bookId) :
    lookupA (cloud.foldl (mergeStep loc now) st).progress R.bookId
      = some (match lookupA loc R.bookId with
              | none => R
              | some l => if l.lastRead < R.lastRead then R else l) := by
  induction cloud generalizing st with
  | nil => exact absurd hR (by simp)
  | cons c rest ih =>
      simp only [List.map_cons, List.nodup_cons] at hnd
      rcases List.mem_cons.1 hR with hRc | hRrest
      · subst hRc
        rw [List.foldl_cons,
          mergeFold_progress_lookup_not_mem loc now rest _ R.bookId hnd.1]
        unfold mergeStep
        cases hl : lookupA loc R.bookId with
        | none => simp [saveReadingProgress, lookupA_insertA_self]
        | some l =>
            by_cases hlt : l.lastRead < R.lastRead
            · simp [hlt, saveReadingProgress, lookupA_insertA_self]
            · simpa [hlt, hl] using hagree
      · have hne : c.bookId ≠ R.bookId := by
          intro he
          exact hnd.1 (he ▸ List.mem_map_of_mem ReadingProgress.bookId hRrest)
        rw [List.foldl_cons]
        exact ih _ hRrest hnd.2
          ((mergeStep_progress_lookup_ne loc now st c R.bookId hne).trans hagree)

/-- C1: for every record R of the pulled cloud set (book ids in the pull
are pairwise distinct, the server keying progress by (user, book)) and
every local store, after `pullAndMergeProgress` the store holds, for
R's book id, exactly R when there was no local record or R's `lastRead`
is strictly later than the local record's, and the unchanged local record
otherwise — the adopted record replacing the loser wholesale, its
bookmarks list included, since whole `ReadingProgress` values are stored. -/
theorem pull_and_merge_last_writer_wins (cloud : List ReadingProgress) (store : Store)
    (now : Int) (R : ReadingProgress) (hR : R ∈ cloud)
    (hnd : (cloud.map ReadingProgress.bookId).Nodup) :
    lookupA (pullAndMergeProgress cloud store now).progress R.bookId
      = some (match lookupA store.progress R.bookId with
              | none => R
              | some l => if l.lastRead < R.lastRead then R else l) :=
  mergeFold_lww store.progress now cloud store R hR hnd rfl

theorem pull_and_merge_last_writer_wins_witness :
    lookupA (pullAndMergeProgress
        [⟨"b1", 50, 100, 50, 200, []⟩, ⟨"b2", 3, 10, 30, 100, [⟨"m", 3, none, 7⟩]⟩]
        ⟨[("b1", ⟨"b1", 10, 100, 10, 100, [⟨"k", 1, none, 5⟩]⟩)], []⟩ 1000).progress "b1"
      = some ⟨"b1", 50, 100, 50, 200, []⟩
  ∧ lookupA (pullAndMergeProgress
        [⟨"b1", 50, 100, 50, 200, []⟩, ⟨"b2", 3, 10, 30, 100, [⟨"m", 3, none, 7⟩]⟩]
        ⟨[("b1", ⟨"b1", 10, 100, 10, 100, [⟨"k", 1, none, 5⟩]⟩)], []⟩ 1000).progress "b2"
      = some ⟨"b2", 3, 10, 30, 100, [⟨"m", 3, none, 7⟩]⟩ := by
  have h1 := pull_and_merge_last_writer_wins
    [⟨"b1", 50, 100, 50, 200, []⟩, ⟨"b2", 3, 10, 30, 100, [⟨"m", 3, none, 7⟩]⟩]
    ⟨[("b1", ⟨"b1", 10, 100, 10, 100, [⟨"k", 1, none, 5⟩]⟩)], []⟩ 1000
    ⟨"b1", 50, 100, 50, 200, []⟩ (by simp) (by decide)
  have h2 := pull_and_merge_last_writer_wins
    [⟨"b1", 50, 100, 50, 200, []⟩, ⟨"b2", 3, 10, 30, 100, [⟨"m", 3, none, 7⟩]⟩]
    ⟨[("b1", ⟨"b1", 10, 100, 10, 100, [⟨"k", 1, none, 5⟩]⟩)], []⟩ 1000
    ⟨"b2", 3, 10, 30, 100, [⟨"m", 3, none, 7⟩]⟩ (by simp) (by decide)
  refine ⟨?_, ?_⟩
  · rw [h1]; rfl
  · rw [h2]; rfl

theorem findRecent_book_id (recent : List RecentBook) (bookId : String) (r : RecentBook)
    (h : findRecent recent bookId = some r) : r.book.id = bookId := by
  induction recent with
  | nil => simp [findRecent] at h
  | cons r0 rest ih =>
      by_cases h0 : r0.book.id = bookId
      · simp [findRecent, h0] at h
        rw [← h]; exact h0
      · simp [findRecent, h0] at h
        exact ih h

theorem removeRecentFirst_sublist (recent : List RecentBook) (bookId : String) :
    List.Sublist (removeRecentFirst recent bookId) recent := by
  induction recent with
  | nil => simp [removeRecentFirst]
  | cons r0 rest ih =>
      by_cases h0 : r0.book.id = bookId
      · rw [show removeRecentFirst (r0 :: rest) bookId = rest by
            simp [removeRecentFirst, h0]]
        exact List.sublist_cons_self r0 rest
      · rw [show removeRecentFirst (r0 :: rest) bookId
            = r0 :: removeRecentFirst rest bookId by simp [removeRecentFirst, h0]]
        exact List.Sublist.cons₂ r0 ih

theorem not_mem_removeRecentFirst (recent : List RecentBook) (bookId : String)
    (hnd : (recent.map (fun x => x.book.id)).Nodup) :
    bookId ∉ (removeRecentFirst recent bookId).map (fun x => x.book.id) := by
  induction recent with
  | nil => simp [removeRecentFirst]
  | cons r0 rest ih =>
      have hnd2 := hnd
      rw [List.map_cons, List.nodup_cons] at hnd2
      by_cases h0 : r0.book.id = bookId
      · have hrw : removeRecentFirst (r0 :: rest) bookId = rest := by
          simp [removeRecentFirst, h0]
        rw [hrw]
        exact h0 ▸ hnd2.1
      · have hrw : removeRecentFirst (r0 :: rest) bookId
            = r0 :: removeRecentFirst rest bookId := by
          simp [removeRecentFirst, h0]
        rw [hrw, List.map_cons]
        intro hmem
        rcases List.mem_cons.1 hmem with he | hm
        · exact h0 he.symm
        · exact (ih hnd2.2) hm

/-- C8: saving progress for a book that already has a recent-books entry
moves that entry to the front with its last-read time and percentage
updated, does not duplicate it (book ids stay pairwise distinct), and
leaves at most 20 entries; and `addToRecentBooks` leaves at most 20
entries after every add, whatever the starting list. -/
theorem save_progress_recent_books (store : Store) (bookId : String)
    (p : ReadingProgress) (now : Int) (r : RecentBook)
    (hfind : findRecent store.recent bookId = some r)
    (hnd : (store.recent.map (fun x => x.book.id)).Nodup) :
    ((saveReadingProgress store now bookId p).recent.head?
        = some { r with lastRead := now, progress := p.percentage })
  ∧ (((saveReadingProgress store now bookId p).recent.map
        (fun x => x.book.id)).Nodup)
  ∧ ((saveReadingProgress store now bookId p).recent.length ≤ 20)
  ∧ (∀ (recent : List RecentBook) (b : Book) (t : Int),
      (addToRecentBooks recent b t).length ≤ 20) := by
  have hrecent : (saveReadingProgress store now bookId p).recent
      = ({ r with lastRead := now, progress := p.percentage }
          :: removeRecentFirst store.recent bookId).take 20 := by
    simp [saveReadingProgress, updateRecentBooks, hfind]
  refine ⟨?_, ?_, ?_, ?_⟩
  · rw [hrecent]
    rfl
  · rw [hrecent]
    have hid : ({ r with lastRead := now, progress := p.percentage } : RecentBook).book.id
        = bookId := findRecent_book_id store.recent bookId r hfind
    have hnodup : ((({ r with lastRead := now, progress := p.percentage })
        :: removeRecentFirst store.recent bookId).map (fun x => x.book.id)).Nodup := by
      rw [List.map_cons, List.nodup_cons]
      constructor
      · rw [hid]
        exact not_mem_removeRecentFirst store.recent bookId hnd
      · exact hnd.sublist ((removeRecentFirst_sublist store.recent bookId).map _)
    have hsub : List.Sublist
        (((({ r with lastRead := now, progress := p.percentage })
          :: removeRecentFirst store.recent bookId).take 20).map (fun x => x.book.id))
        ((({ r with lastRead := now, progress := p.percentage })
          :: removeRecentFirst store.recent bookId).map (fun x => x.book.id)) :=
      (List.take_sublist _ _).map _
    exact hnodup.sublist hsub
  · rw [hrecent]
    exact List.length_take_le 20 _
  · intro recent b t
    unfold addToRecentBooks
    cases findRecent recent b.id with
    | some r0 => exact List.length_take_le 20 _
    | none => exact List.length_take_le 20 _

theorem save_progress_recent_books_witness :
    ((saveReadingProgress
        ⟨[], [⟨⟨"b2", "U", "pdf"⟩, 1, 0⟩, ⟨⟨"b1", "T", "pdf"⟩, 0, 0⟩]⟩
        99 "b1" ⟨"b1", 5, 10, 50, 99, []⟩).recent.head?
      = some ⟨⟨"b1", "T", "pdf"⟩, 99, 50⟩)
  ∧ (((saveReadingProgress
        ⟨[], [⟨⟨"b2", "U", "pdf"⟩, 1, 0⟩, ⟨⟨"b1", "T", "pdf"⟩, 0, 0⟩]⟩
        99 "b1" ⟨"b1", 5, 10, 50, 99, []⟩).recent.map (fun x => x.book.id)).Nodup)
  ∧ ((saveReadingProgress
        ⟨[], [⟨⟨"b2", "U", "pdf"⟩, 1, 0⟩, ⟨⟨"b1", "T", "pdf"⟩, 0, 0⟩]⟩
        99 "b1" ⟨"b1", 5, 10, 50, 99, []⟩).recent.length ≤ 20)
  ∧ ((addToRecentBooks [] ⟨"b9", "V", "pdf"⟩ 3).length ≤ 20) := by
  have h := save_progress_recent_books
    ⟨[], [⟨⟨"b2", "U", "pdf"⟩, 1, 0⟩, ⟨⟨"b1", "T", "pdf"⟩, 0, 0⟩]⟩
    "b1" ⟨"b1", 5, 10, 50, 99, []⟩ 99 ⟨⟨"b1", "T", "pdf"⟩, 0, 0⟩ (by decide) (by decide)
  exact ⟨h.1, h.2.1, h.2.2.1, h.2.2.2 [] ⟨"b9", "V", "pdf"⟩ 3⟩

/-- C3: `pushSingleProgress` is throttled through the single
`lastCloudPush` timestamp: a call less than 30 s after that timestamp
returns false, changes nothing and sends nothing; and in a run whose
previous push succeeded at `t0`, a second call within the window returns
false while a third call after the window elapses returns true and sends. -/
theorem push_single_throttled :
    (∀ (st : SyncState) (now : Int) (p : ReadingProgress) (netOk : Bool),
      now - st.lastCloudPush < CLOUD_PUSH_THROTTLE_MS →
      pushSingleProgress st now p netOk = Except.ok (false, st, none))
  ∧ (∀ (st : SyncState) (t0 t1 t2 : Int) (p q r : ReadingProgress),
      CLOUD_PUSH_THROTTLE_MS ≤ t0 - st.lastCloudPush →
      t1 - t0 < CLOUD_PUSH_THROTTLE_MS →
      CLOUD_PUSH_THROTTLE_MS ≤ t2 - t0 →
      pushSingleProgress st t0 p true = Except.ok (true, ⟨t0⟩, some [p])
      ∧ pushSingleProgress ⟨t0⟩ t1 q true = Except.ok (false, ⟨t0⟩, none)
      ∧ pushSingleProgress ⟨t0⟩ t2 r true = Except.ok (true, ⟨t2⟩, some [r])) := by
  constructor
  · intro st now p netOk h
    simp [pushSingleProgress, h]
  · intro st t0 t1 t2 p q r h0 h1 h2
    refine ⟨?_, ?_, ?_⟩
    · simp [pushSingleProgress, not_lt.2 h0]
    · simp [pushSingleProgress, h1]
    · simp [pushSingleProgress, not_lt.2 h2]

theorem push_single_throttled_witness :
    pushSingleProgress ⟨100000⟩ 100001 ⟨"b", 1, 2, 50, 0, []⟩ true
      = Except.ok (false, ⟨100000⟩, none)
  ∧ (pushSingleProgress ⟨0⟩ 100000 ⟨"b", 1, 2, 50, 0, []⟩ true
      = Except.ok (true, ⟨100000⟩, some [⟨"b", 1, 2, 50, 0, []⟩])
    ∧ pushSingleProgress ⟨100000⟩ 100001 ⟨"c", 1, 2, 50, 0, []⟩ true
      = Except.ok (false, ⟨100000⟩, none)
    ∧ pushSingleProgress ⟨100000⟩ 200000 ⟨"d", 1, 2, 50, 0, []⟩ true
      = Except.ok (true, ⟨200000⟩, some [⟨"d", 1, 2, 50, 0, []⟩])) :=
  ⟨push_single_throttled.1 ⟨100000⟩ 100001 ⟨"b", 1, 2, 50, 0, []⟩ true (by decide),
   push_single_throttled.2 ⟨0⟩ 100000 100001 200000
     ⟨"b", 1, 2, 50, 0, []⟩ ⟨"c", 1, 2, 50, 0, []⟩ ⟨"d", 1, 2, 50, 0, []⟩
     (by decide) (by decide) (by decide)⟩

/-- C10, counterexample: a `pushAllProgress` whose network call throws
leaves `lastCloudPush` unchanged, so a `pushSingleProgress` one second
after that pushAll call returns true and sends — the claim would require
it to return false. -/
theorem push_all_failure_leaves_throttle :
    pushAllProgress ⟨0⟩ ⟨[("b", ⟨"b", 1, 2, 50, 5, []⟩)], []⟩ 1000000 false
      = Except.error ⟨0⟩
  ∧ pushSingleProgress ⟨0⟩ 1001000 ⟨"b", 1, 2, 50, 5, []⟩ true
      = Except.ok (true, ⟨1001000⟩, some [⟨"b", 1, 2, 50, 5, []⟩])
  ∧ (1001000 : Int) - 1000000 < CLOUD_PUSH_THROTTLE_MS := by
  refine ⟨rfl, ?_, by decide⟩
  simp [pushSingleProgress, CLOUD_PUSH_THROTTLE_MS]

/-- C10 (amended): every `pushAllProgress` call that completes without a
network error sets `lastCloudPush` to the current time — in particular
when the local set is empty and no network call is made — and any
`pushSingleProgress` within 30 s of a completed pushAll returns false
without sending. -/
theorem push_all_sets_throttle (st : SyncState) (store : Store) (now : Int)
    (netOk : Bool) (st2 : SyncState) (sent : Option (List ReadingProgress))
    (hok : pushAllProgress st store now netOk = Except.ok (st2, sent)) :
    st2.lastCloudPush = now
  ∧ (store.progress = [] → st2 = ⟨now⟩ ∧ sent = none)
  ∧ (∀ (t : Int) (p : ReadingProgress) (netOk2 : Bool),
      t - now < CLOUD_PUSH_THROTTLE_MS →
      pushSingleProgress st2 t p netOk2 = Except.ok (false, st2, none)) := by
  have hst2 : st2 = ⟨now⟩ ∧ (store.progress = [] → sent = none) := by
    unfold pushAllProgress at hok
    by_cases hlen : 0 < (getAllReadingProgress store).length
    · cases netOk with
      | true =>
          simp [hlen] at hok
          refine ⟨hok.1.symm, fun hemp => ?_⟩
          exact absurd hlen (by simp [getAllReadingProgress, hemp])
      | false => simp [hlen] at hok
    · simp [hlen] at hok
      exact ⟨hok.1.symm, fun _ => hok.2.symm⟩
  refine ⟨by rw [hst2.1], fun hemp => ⟨hst2.1, hst2.2 hemp⟩, ?_⟩
  intro t p netOk2 ht
  have hlt : t - st2.lastCloudPush < CLOUD_PUSH_THROTTLE_MS := by
    rw [hst2.1]; exact ht
  simp [pushSingleProgress, hlt]

theorem push_all_sets_throttle_witness :
    ((⟨5⟩ : SyncState).lastCloudPush = 5)
  ∧ ((⟨5⟩ : SyncState) = ⟨5⟩ ∧ (none : Option (List ReadingProgress)) = none)
  ∧ pushSingleProgress ⟨5⟩ 10 ⟨"b", 1, 2, 50, 0, []⟩ true
      = Except.ok (false, ⟨5⟩, none) := by
  have h := push_all_sets_throttle ⟨0⟩ ⟨[], []⟩ 5 false ⟨5⟩ none rfl
  exact ⟨h.1, h.2.1 rfl, h.2.2 10 ⟨"b", 1, 2, 50, 0, []⟩ true (by decide)⟩

/-! ## Reader store save action (zustand store, `saveProgress`) -/

/-- The slice of the reader UI store that `saveProgress` reads. -/
structure AppState where
  currentBook : Option Book
  currentPage : Int
  totalPages : Int
  bookmarks : List Bookmark
  isAuthenticated : Bool
  deriving Repr, DecidableEq

/-- `Math.round` on the (nonnegative, finite) page ratio: half-up
rounding of the exact rational value. -/
def jsRound (q : ℚ) : Int := ⌊q + 1 / 2⌋

/-- The `saveProgress` action, restricted to its effect on the Local
Durable Store: with a current book and a positive page count it builds a
fresh record — the percentage derived on the spot — and stores it through
`saveReadingProgress`; otherwise it writes nothing.  The subsequent
throttled cloud push is fire-and-forget with errors swallowed and never
touches the local store. -/
def saveProgress (app : AppState) (store : Store) (now : Int) : Store :=
  match app.currentBook with
  | some book =>
      if 0 < app.totalPages then
        saveReadingProgress store now book.id
          { bookId := book.id
            currentPage := app.currentPage
            totalPages := app.totalPages
            percentage := jsRound ((app.currentPage : ℚ) / (app.totalPages : ℚ) * 100)
            lastRead := now
            bookmarks := app.bookmarks }
      else store
  | none => store

/-- C7, counterexample: with `totalPages = 0` a save writes nothing, so a
pre-existing record keeps its percentage (37 here) — the claim would
require percentage 0 after the save. -/
theorem save_progress_zero_pages_not_zero_percent :
    ((lookupA (saveProgress
        ⟨some ⟨"b1", "T", "pdf"⟩, 5, 0, [], false⟩
        ⟨[("b1", ⟨"b1", 2, 10, 37, 50, []⟩)], []⟩ 1000).progress "b1").map
          ReadingProgress.percentage = some 37)
  ∧ (37 : Int) ≠ 0 :=
  ⟨rfl, by decide⟩

/-- C7 (amended): every record written by `saveProgress` carries the
derived percentage `round(currentPage / totalPages * 100)` — it is never
written out of sync with `currentPage` and `totalPages`; and when
`totalPages = 0` the save writes no record at all, leaving the store
unchanged. -/
theorem save_progress_percentage_derived (app : AppState) (store : Store)
    (now : Int) (book : Book) (hbook : app.currentBook = some book) :
    (0 < app.totalPages → 1 ≤ app.currentPage → app.currentPage ≤ app.totalPages →
      lookupA (saveProgress app store now).progress book.id
        = some ⟨book.id, app.currentPage, app.totalPages,
            jsRound ((app.currentPage : ℚ) / (app.totalPages : ℚ) * 100),
            now, app.bookmarks⟩)
  ∧ (¬ 0 < app.totalPages → saveProgress app store now = store) := by
  constructor
  · intro hpos h1 h2
    simp [saveProgress, hbook, hpos, saveReadingProgress, lookupA_insertA_self]
  · intro hneg
    simp [saveProgress, hbook, hneg]

theorem save_progress_percentage_derived_witness :
    (lookupA (saveProgress ⟨some ⟨"b", "T", "pdf"⟩, 5, 10, [], false⟩ ⟨[], []⟩ 7).progress "b"
        = some ⟨"b", 5, 10, jsRound ((5 : ℚ) / (10 : ℚ) * 100), 7, []⟩)
  ∧ (saveProgress ⟨some ⟨"b", "T", "pdf"⟩, 5, 0, [], false⟩ ⟨[], []⟩ 7 = ⟨[], []⟩) :=
  ⟨(save_progress_percentage_derived ⟨some ⟨"b", "T", "pdf"⟩, 5, 10, [], false⟩
      ⟨[], []⟩ 7 ⟨"b", "T", "pdf"⟩ rfl).1 (by decide) (by decide) (by decide),
   (save_progress_percentage_derived ⟨some ⟨"b", "T", "pdf"⟩, 5, 0, [], false⟩
      ⟨[], []⟩ 7 ⟨"b", "T", "pdf"⟩ rfl).2 (by decide)⟩

/-! ## Tiered-cache traces (failover transparency)

A client-visible trace of cache calls, timed, with the primary reachable
strictly before a cutoff `T` and unreachable from `T` on (the claim's
"unreachable for a suffix of the sequence").  While reachable, primary
calls succeed against the primary keyspace (the external Redis store,
modelled with its standard TTL semantics); once unreachable, primary
calls fail — connectivity flag down or call throwing, which reach the
same fallback path in the code — and the operations absorb the failure. -/

/-- One operation of a cache trace. -/
inductive CacheOp (α : Type) where
  | set (key : String) (value : α) (ttl : Int)
  | get (key : String)
  | del (key : String)
  deriving Repr, DecidableEq

/-- Trace state: primary keyspace contents plus the fallback map. -/
structure CacheState (α : Type) where
  prim : Mem α
  mem : Mem α
  deriving Repr, DecidableEq

/-- Redis-side read semantics (external service): expired keys read as
nil; `setEx` stores with an absolute expiry. -/
def primGetSem {α : Type} (prim : Mem α) (now : Int) (key : String) : Option α :=
  match lookupA prim key with
  | some e => if now < e.expiry then some e.data else none
  | none => none

/-- One trace step at time `t` with reachability cutoff `T`. -/
def cacheStep {α : Type} (T : Int) (st : CacheState α) (t : Int) :
    CacheOp α → Option α × CacheState α
  | CacheOp.get key =>
      let conn := decide (t < T)
      let resp : Except Unit (Option α) :=
        if t < T then Except.ok (primGetSem st.prim t key) else Except.error ()
      let r := cacheGet conn resp st.mem t key
      (r.1, { st with mem := r.2 })
  | CacheOp.set key value ttl =>
      let prim2 := if t < T then insertA st.prim key ⟨value, t + ttl * 1000⟩ else st.prim
      let mem2 := cacheSet (decide (t < T)) (Except.ok ()) st.mem t key value ttl
      (none, { prim := prim2, mem := mem2 })
  | CacheOp.del key =>
      let prim2 := if t < T then eraseA st.prim key else st.prim
      (none, { prim := prim2,
               mem := cacheDel (decide (t < T)) (Except.ok ()) st.mem key })

/-- Run a timed trace, collecting every operation's result. -/
def runCache {α : Type} (T : Int) (st : CacheState α) :
    List (Int × CacheOp α) → List (Option α) × CacheState α
  | [] => ([], st)
  | (t, op) :: rest =>
      let r := cacheStep T st t op
      let rr := runCache T r.2 rest
      (r.1 :: rr.1, rr.2)

/-- C2, counterexample: primary reachable at the set (t = 0), unreachable
from T = 5 on.  The set succeeded against the primary (the key is in the
primary keyspace) and its 100 s TTL is far from elapsed at the get
(t = 10), yet the get — now served by the fallback, which never saw the
key — returns absent instead of the value that was set. -/
theorem failover_read_your_write_fails :
    (runCache 5 ⟨[], []⟩ [(0, CacheOp.set "k" "v" 100), (10, CacheOp.get "k")]).1
      = [none, none]
  ∧ ((runCache 5 ⟨[], []⟩ [(0, CacheOp.set "k" "v" 100)]).2.prim
      = [("k", ⟨"v", 100000⟩)])
  ∧ ((10 : Int) < 0 + 100 * 1000)
  ∧ ((none : Option String) ≠ some "v") :=
  ⟨rfl, rfl, by decide, by decide⟩

theorem runCache_prim_preserved {α : Type} (T : Int) (k : String) (e : MemEntry α)
    (mid : List (Int × CacheOp α)) (st : CacheState α)
    (hmid : ∀ p ∈ mid, (∀ v2 ttl2, p.2 ≠ CacheOp.set k v2 ttl2) ∧ p.2 ≠ CacheOp.del k)
    (h : lookupA st.prim k = some e) :
    lookupA (runCache T st mid).2.prim k = some e := by
  induction mid generalizing st with
  | nil => simpa [runCache] using h
  | cons p rest ih =>
      obtain ⟨t, op⟩ := p
      have hp := hmid (t, op) (List.mem_cons_self _ _)
      have hrest : ∀ q ∈ rest,
          (∀ v2 ttl2, q.2 ≠ CacheOp.set k v2 ttl2) ∧ q.2 ≠ CacheOp.del k :=
        fun q hq => hmid q (List.mem_cons_of_mem _ hq)
      have hstep : lookupA (cacheStep T st t op).2.prim k = some e := by
        cases op with
        | get key => simpa [cacheStep] using h
        | set key v2 ttl2 =>
            have hkey : key ≠ k := fun hk => (hp.1 v2 ttl2) (by rw [hk])
            by_cases hT : t < T
            · simpa [cacheStep, hT, lookupA_insertA_ne _ _ _ _ hkey] using h
            · simpa [cacheStep, hT] using h
        | del key =>
            have hkey : key ≠ k := fun hk => hp.2 (by rw [hk])
            by_cases hT : t < T
            · simpa [cacheStep, hT, lookupA_eraseA_ne _ _ _ hkey] using h
            · simpa [cacheStep, hT] using h
      exact ih _ hrest hstep

theorem runCache_mem_preserved {α : Type} (T : Int) (k : String) (v : α) (e : Int)
    (mid : List (Int × CacheOp α)) (st : CacheState α)
    (hmid : ∀ p ∈ mid, p.1 < e ∧ (∀ v2 ttl2, p.2 ≠ CacheOp.set k v2 ttl2)
        ∧ p.2 ≠ CacheOp.del k)
    (h : lookupA st.mem k = some ⟨v, e⟩) :
    lookupA (runCache T st mid).2.mem k = some ⟨v, e⟩ := by
  induction mid generalizing st with
  | nil => simpa [runCache] using h
  | cons p rest ih =>
      obtain ⟨t, op⟩ := p
      have hp := hmid (t, op) (List.mem_cons_self _ _)
      have hrest : ∀ q ∈ rest, q.1 < e ∧ (∀ v2 ttl2, q.2 ≠ CacheOp.set k v2 ttl2)
          ∧ q.2 ≠ CacheOp.del k :=
        fun q hq => hmid q (List.mem_cons_of_mem _ hq)
      have hstep : lookupA (cacheStep T st t op).2.mem k = some ⟨v, e⟩ := by
        cases op with
        | get key =>
            by_cases hT : t < T
            · simpa [cacheStep, hT, cacheGet] using h
            · by_cases hkey : key = k
              · subst hkey
                simp [cacheStep, hT, cacheGet_false, memGet, h, hp.1]
              · have hkeyne : key ≠ k := hkey
                cases hlk : lookupA st.mem key with
                | none =>
                    simpa [cacheStep, hT, cacheGet_false, memGet, hlk,
                      lookupA_eraseA_ne _ _ _ hkeyne] using h
                | some e2 =>
                    by_cases hlive : t < e2.expiry
                    · simpa [cacheStep, hT, cacheGet_false, memGet, hlk, hlive] using h
                    · simpa [cacheStep, hT, cacheGet_false, memGet, hlk, hlive,
                        lookupA_eraseA_ne _ _ _ hkeyne] using h
        | set key v2 ttl2 =>
            have hkey : key ≠ k := fun hk => (hp.2.1 v2 ttl2) (by rw [hk])
            by_cases hT : t < T
            · simpa [cacheStep, hT, cacheSet] using h
            · simpa [cacheStep, hT, cacheSet, lookupA_insertA_ne _ _ _ _ hkey] using h
        | del key =>
            have hkey : key ≠ k := fun hk => hp.2.2 (by rw [hk])
            by_cases hT : t < T
            · simpa [cacheStep, hT, cacheDel, lookupA_eraseA_ne _ _ _ hkey] using h
            · simpa [cacheStep, hT, cacheDel, lookupA_eraseA_ne _ _ _ hkey] using h
      exact ih _ hrest hstep

/-- C2 (amended): no exception escapes the Tiered Cache (every primary
failure is caught — the trace semantics is a total function), and every
get of a key following a successful set of that key — before the set's
TTL has elapsed, with no other set or delete of that key in between, and
with the set and the get on the same side of the reachability cutoff
(both while the primary is reachable, or both within the unreachable
suffix) — returns the value that was set, whichever tier serves it. -/
theorem failover_read_your_write (T ts tg ttl : Int) (k v : String)
    (st : CacheState String) (mid : List (Int × CacheOp String))
    (hts : ts ≤ tg) (httl : tg < ts + ttl * 1000)
    (hside : tg < T ∨ T ≤ ts)
    (hmid : ∀ p ∈ mid, ts ≤ p.1 ∧ p.1 ≤ tg ∧
        (∀ v2 ttl2, p.2 ≠ CacheOp.set k v2 ttl2) ∧ p.2 ≠ CacheOp.del k) :
    (cacheStep T (runCache T (cacheStep T st ts (CacheOp.set k v ttl)).2 mid).2
        tg (CacheOp.get k)).1 = some v := by
  rcases hside with hA | hB
  · have hTs : ts < T := lt_of_le_of_lt hts hA
    have hprim1 : lookupA (cacheStep T st ts (CacheOp.set k v ttl)).2.prim k
        = some ⟨v, ts + ttl * 1000⟩ := by
      simp [cacheStep, hTs, lookupA_insertA_self]
    have hprim := runCache_prim_preserved T k ⟨v, ts + ttl * 1000⟩ mid _
      (fun p hp => ⟨(hmid p hp).2.2.1, (hmid p hp).2.2.2⟩) hprim1
    generalize hgen : (runCache T (cacheStep T st ts (CacheOp.set k v ttl)).2 mid).2 = stf
      at hprim ⊢
    simp [cacheStep, hA, cacheGet, primGetSem, hprim, httl]
  · have hTs : ¬ ts < T := not_lt.2 hB
    have hmem1 : lookupA (cacheStep T st ts (CacheOp.set k v ttl)).2.mem k
        = some ⟨v, ts + ttl * 1000⟩ := by
      simp [cacheStep, hTs, cacheSet, lookupA_insertA_self]
    have hTg : ¬ tg < T := not_lt.2 (le_trans hB hts)
    have hmem := runCache_mem_preserved T k v (ts + ttl * 1000) mid _
      (fun p hp => ⟨lt_of_le_of_lt (hmid p hp).2.1 httl,
        (hmid p hp).2.2.1, (hmid p hp).2.2.2⟩) hmem1
    generalize hgen : (runCache T (cacheStep T st ts (CacheOp.set k v ttl)).2 mid).2 = stf
      at hmem ⊢
    simp [cacheStep, hTg, cacheGet_false, memGet, hmem, httl]

theorem failover_read_your_write_witness :
    (cacheStep 0 (runCache 0
        (cacheStep 0 (⟨[], []⟩ : CacheState String) 1 (CacheOp.set "k" "v" 100)).2
        [(1, CacheOp.get "k")]).2 2 (CacheOp.get "k")).1 = some "v" :=
  failover_read_your_write 0 1 2 100 "k" "v" ⟨[], []⟩ [(1, CacheOp.get "k")]
    (by decide) (by decide) (Or.inr (by decide))
    (by intro p hp; simp at hp; simp [hp])
